import Mathlib

/-!
# static_embed: function-timing instrumentation

A shallow embedding of `service/embed_service.go` (`addFunctionTiming`,
`getFunctionName`, `processDirectory`), of `vs/file_visitor.go`
(`FileVisitor.Visit`) and of the support file `vs/_runtime/func_trace.go`.

Conventions of the embedding.

* A Go `string` is a sequence of bytes: `GoString := List UInt8`.  `len` is the
  list length, `s[:n]` is `List.take n`, `==` is equality of byte sequences.
  String constants of the source are written with `str`, the UTF-8 bytes of a
  literal.
* The syntax tree follows `go/ast`; positions and comments are left out.  Node
  kinds the program never builds or inspects are kept as `Other`.
* Library calls are embedded from the behaviour of the library versions the
  program links against (`astutil.AddImport`, `filepath.Walk`, `filepath.Ext`,
  `filepath.Base`, `os.WriteFile`, Unix path separator).  The parser and the
  printer are parameters (`Env`).
* Effects are explicit: the disk and standard output are threaded as a `World`;
  a Go `error` is `Option GoString` (the message), `none` being `nil`.
-/

namespace StaticEmbed

/-! ## Strings -/

/-- A Go string: an immutable sequence of bytes. -/
abbrev GoString := List UInt8

/-- The bytes (UTF-8) of a string constant of the source. -/
def str (s : String) : GoString := s.data.flatMap String.utf8EncodeChar

/-! ## Syntax tree (`go/ast`) -/

/-- The tokens of `go/token` that occur in the program, and the rest. -/
inductive Token where
  | DEFINE
  | STRING
  | IMPORT
  | ADD
  | Other (code : Nat)

mutual
/-- The `ast.Field` node: names and a type expression. -/
inductive Field where
  | mk (Names : List GoString) (Typ : Expr)
/-- The `ast.Expr` nodes. -/
inductive Expr where
  | Ident (Name : GoString)
  | BasicLit (Kind : Token) (Value : GoString)
  | SelectorExpr (X : Expr) (Sel : GoString)
  | CallExpr (Fun : Expr) (Args : List Expr)
  | StarExpr (X : Expr)
  | ParenExpr (X : Expr)
  | IndexExpr (X : Expr) (Index : Expr)
  | IndexListExpr (X : Expr) (Indices : List Expr)
  | BinaryExpr (X : Expr) (Op : Token) (Y : Expr)
  | FuncLit (Params : Option (List Field)) (Results : Option (List Field)) (Body : List Stmt)
  | Other (code : Nat)
/-- The `ast.Stmt` nodes. -/
inductive Stmt where
  | AssignStmt (Lhs : List Expr) (Tok : Token) (Rhs : List Expr)
  | DeferStmt (Call : Expr)
  | ExprStmt (X : Expr)
  | ReturnStmt (Results : List Expr)
  | Other (code : Nat)
end

/-- The type of a field (`Field.Type`). -/
def Field.type : Field → Expr
  | .mk _ t => t

/-- The `ast.FuncType` node: parameters and results (`nil` results are `none`). -/
structure FuncType where
  Params : List Field
  Results : Option (List Field)

/-- The `ast.FuncDecl` node.  `Recv = none` is a nil receiver list, `Body = none`
is a nil body (a declaration without body); `Name` is `Name.Name`. -/
structure FuncDecl where
  Recv : Option (List Field)
  Name : GoString
  Typ : FuncType
  Body : Option (List Stmt)

/-- The `ast.ImportSpec` node: the local name (`none` when `Name == nil`) and
the path, unquoted (what `importPath` returns). -/
structure ImportSpec where
  Name : Option GoString
  Path : GoString

/-- The `ast.Decl` nodes: a function declaration, or a general declaration
(import, const, type, var), whose specs the program never inspects. -/
inductive Decl where
  | func (d : FuncDecl)
  | gen (Tok : Token) (code : Nat)
  | bad (code : Nat)

/-- The `ast.File` node: package name, top-level declarations, and the imports
of the file (`File.Imports`). -/
structure File where
  Name : GoString
  Decls : List Decl
  Imports : List ImportSpec

/-! ## `astutil.AddImport` -/

/-- The name of an import spec, `""` when it has none (`astutil.importName`). -/
def importName (s : ImportSpec) : GoString :=
  match s.Name with
  | none => []
  | some n => n

/-- The path of an import spec (`astutil.importPath`). -/
def importPath (s : ImportSpec) : GoString := s.Path

/-- Whether the file has an import with this name and path (`astutil.imports`). -/
def imports (f : File) (name path : GoString) : Bool :=
  f.Imports.any (fun s => importName s == name && importPath s == path)

/-- The import spec `AddNamedImport` builds: named only when `name != ""`. -/
def newImport (name path : GoString) : ImportSpec :=
  { Name := if name != [] then some name else none, Path := path }

/-- The effect of `astutil.AddNamedImport` on `File.Imports`: nothing when the
file already has an import with this name and path, else the new spec is
appended.  The call also rewrites the import declarations among `File.Decls`
(a new declaration, or declarations merged); that rewrite touches no function
declaration and is not part of the embedding, so `Decls` here stands for the
declarations with the import declarations as they were parsed. -/
def AddNamedImport (f : File) (name path : GoString) : File :=
  if imports f name path then f
  else { f with Imports := f.Imports ++ [newImport name path] }

/-- The call `astutil.AddImport(fset, f, path)`, which is
`AddNamedImport(fset, f, "", path)`. -/
def AddImport (f : File) (path : GoString) : File :=
  AddNamedImport f [] path

/-! ## `getFunctionName` -/

/-- The function `getFunctionName` of `embed_service.go`. -/
def getFunctionName (funcDecl : FuncDecl) : GoString :=
  match funcDecl.Recv with
  | some (recv :: _) =>
    let recvStr : GoString :=
      match recv.type with
      | .Ident name => name
      | .StarExpr (.Ident name) => str "*" ++ name
      | .StarExpr _ => str "*unknown"
      | _ => str "unknown"
    recvStr ++ str "." ++ funcDecl.Name
  | _ => funcDecl.Name

/-! ## The statements `addFunctionTiming` inserts -/

/-- The statement `__start := time.Now()` (`startStmt`). -/
def startStmt : Stmt :=
  .AssignStmt [.Ident (str "__start")] .DEFINE
    [.CallExpr (.SelectorExpr (.Ident (str "time")) (str "Now")) []]

/-- The text `fmt.Sprintf("\"函数 %s 耗时: %%v\\n\"", funcName)`: the quoted
format literal of the report. -/
def reportFormat (funcName : GoString) : GoString :=
  str "\"函数 " ++ funcName ++ str " 耗时: %v\\n\""

/-- The statement `defer func() { fmt.Printf(<format>, time.Since(__start)) }()`
(`deferStmt`). -/
def deferStmt (funcName : GoString) : Stmt :=
  .DeferStmt
    (.CallExpr
      (.FuncLit (some []) none
        [.ExprStmt
          (.CallExpr (.SelectorExpr (.Ident (str "fmt")) (str "Printf"))
            [.BasicLit .STRING (reportFormat funcName),
             .CallExpr (.SelectorExpr (.Ident (str "time")) (str "Since"))
               [.Ident (str "__start")]])])
      [])

/-- The line `fmt.Printf("已为函数 %s 添加耗时统计\n", funcName)` writes. -/
def progressLine (funcName : GoString) : GoString :=
  str "已为函数 " ++ funcName ++ str " 添加耗时统计\n"

/-- The pre-order callback `addFunctionTiming` hands to `astutil.Apply`, at a
function declaration: the declaration afterwards and what was printed. -/
def applyPre (funcDecl : FuncDecl) : FuncDecl × List GoString :=
  if funcDecl.Name == str "Test" ||
      (decide (funcDecl.Name.length > 4) && funcDecl.Name.take 4 == str "Test") then
    (funcDecl, [])
  else
    let funcName := getFunctionName funcDecl
    let funcDecl1 : FuncDecl :=
      match funcDecl.Body with
      | some list =>
        if list.length > 0 then
          { funcDecl with Body := some ([startStmt, deferStmt funcName] ++ list) }
        else
          { funcDecl with Body := some [startStmt, deferStmt funcName] }
      | none => funcDecl
    (funcDecl1, [progressLine funcName])

/-- The callback at a top-level declaration: only `*ast.FuncDecl` nodes are
acted on. -/
def applyDecl : Decl → Decl × List GoString
  | .func d => (.func (applyPre d).1, (applyPre d).2)
  | other => (other, [])

/-- The traversal over the declarations of a file, in order, collecting the
printed lines. -/
def applyDecls : List Decl → List Decl × List GoString
  | [] => ([], [])
  | d :: ds => ((applyDecl d).1 :: (applyDecls ds).1, (applyDecl d).2 ++ (applyDecls ds).2)

/-- The call `astutil.Apply(file, pre, post)` of `addFunctionTiming`.  Function
declarations occur only among `File.Decls`, so the traversal acts there. -/
def Apply (file : File) : File × List GoString :=
  ({ file with Decls := (applyDecls file.Decls).1 }, (applyDecls file.Decls).2)

/-- The tree part of `addFunctionTiming`, lines 54 to 149: both imports are
ensured, then the traversal runs. -/
def instrument (file : File) : File × List GoString :=
  Apply (AddImport (AddImport file (str "time")) (str "fmt"))

/-! ## `vs/file_visitor.go` -/

/-- The call `strings.HasPrefix(s, pre)`:
`len(s) >= len(pre) && s[:len(pre)] == pre`. -/
def HasPrefix (s pre : GoString) : Bool :=
  decide (s.length ≥ pre.length) && s.take pre.length == pre

/-- The struct `FileVisitor` (the file set, which holds positions, left out). -/
structure FileVisitor where
  File : File
  Modify : Bool

/-- The method `FileVisitor.AddRuntimeIfNeed`. -/
def FileVisitor.AddRuntimeIfNeed (v : FileVisitor) : FileVisitor :=
  { v with File := AddImport (AddImport v.File (str "time")) (str "fmt") }

/-- The method `FileVisitor.addTimecostToFunc`. -/
def FileVisitor.addTimecostToFunc (v : FileVisitor) (_node : FuncDecl) : FileVisitor :=
  v.AddRuntimeIfNeed

/-- A node handed to `Visit`: nil, a function declaration, or any other node. -/
inductive Node where
  | nil
  | funcDecl (n : FuncDecl)
  | other

/-- The method `FileVisitor.Visit`: the visitor afterwards (it returns itself). -/
def FileVisitor.Visit (v : FileVisitor) (node : Node) : FileVisitor :=
  match node with
  | .nil => v
  | .funcDecl n =>
    if HasPrefix n.Name (str "Test") || n.Body.isNone then v
    else { v.addTimecostToFunc n with Modify := true }
  | .other => v

/-! ## The per-file pipeline `addFunctionTiming` -/

/-- How a call of `os.WriteFile` ends: written in full; the open failed (the
file is as before); or the write failed after the file was truncated and
`written` bytes went out. -/
inductive WriteOutcome where
  | ok
  | openFailed (err : GoString)
  | short (err : GoString) (written : Nat)

/-- What the program takes from outside: the parser, the printer, and how
reads and writes of a path end. -/
structure Env where
  /-- The error of reading a path that cannot be read. -/
  readErr : GoString → GoString
  /-- The parser on the text of a file: a tree, or the error message. -/
  parse : GoString → GoString → Except GoString File
  /-- The printer `printer.Config.Fprint`: the text, or the error message. -/
  fprint : File → Except GoString GoString
  /-- How `os.WriteFile` on a path ends. -/
  write : GoString → WriteOutcome

/-- The state the program acts on: file contents by path, and the lines written
to standard output, oldest first. -/
structure World where
  disk : GoString → Option GoString
  stdout : List GoString

/-- The disk with the content of one path replaced. -/
def setFile (disk : GoString → Option GoString) (path data : GoString) :
    GoString → Option GoString :=
  fun p => if p = path then some data else disk p

/-- The call `parser.ParseFile(fset, filePath, nil, parser.ParseComments)`: the
file is read, then parsed. -/
def ParseFile (env : Env) (filePath : GoString) (w : World) : Except GoString File :=
  match w.disk filePath with
  | none => .error (env.readErr filePath)
  | some src => env.parse filePath src

/-- The call `os.WriteFile(filePath, data, 0644)`. -/
def WriteFile (env : Env) (filePath data : GoString) (w : World) : Option GoString × World :=
  match env.write filePath with
  | .ok => (none, { w with disk := setFile w.disk filePath data })
  | .openFailed err => (some err, w)
  | .short err written => (some err, { w with disk := setFile w.disk filePath (data.take written) })

/-- The function `addFunctionTiming` of `embed_service.go`: the returned error
and the world afterwards. -/
def addFunctionTiming (env : Env) (filePath : GoString) (w : World) : Option GoString × World :=
  match ParseFile env filePath w with
  | .error err => (some (str "解析文件失败: " ++ err), w)
  | .ok file =>
    let w1 : World := { w with stdout := w.stdout ++ (instrument file).2 }
    match env.fprint (instrument file).1 with
    | .error err => (some (str "生成代码失败: " ++ err), w1)
    | .ok buf => WriteFile env filePath buf w1

/-! ## `filepath.Ext`, `filepath.Base` (Unix) -/

/-- The byte `/`, the path separator. -/
def slash : UInt8 := 47

/-- The byte `.`. -/
def dot : UInt8 := 46

/-- The loop of `filepath.Ext`, with `n = i + 1`: scan down from index `i`
while the byte is not a separator, return `path[i:]` at a dot. -/
def Ext.loop (path : GoString) : Nat → GoString
  | 0 => []
  | i + 1 =>
    match path[i]? with
    | none => []
    | some c =>
      if c == slash then []
      else if c == dot then path.drop i
      else Ext.loop path i

/-- The function `filepath.Ext`: the suffix of the last element of the path
from its final dot, empty when there is none. -/
def Ext (path : GoString) : GoString := Ext.loop path path.length

/-- The first loop of `filepath.Base`: strip trailing slashes (`fuel` is at
least the length of the path). -/
def Base.strip : Nat → GoString → GoString
  | 0, path => path
  | fuel + 1, path =>
    if path.length > 0 && path.getLast? == some slash then
      Base.strip fuel (path.take (path.length - 1))
    else path

/-- The second loop of `filepath.Base`, with `n = i + 1`: the index after the
last separator, `0` when there is none. -/
def Base.lastElem (path : GoString) : Nat → Nat
  | 0 => 0
  | i + 1 =>
    match path[i]? with
    | none => 0
    | some c => if c == slash then i + 1 else Base.lastElem path i

/-- The function `filepath.Base`: the last element of the path. -/
def Base (path : GoString) : GoString :=
  if path == [] then str "."
  else
    let path1 := Base.strip path.length path
    let path2 := path1.drop (Base.lastElem path1 path1.length)
    if path2 == [] then str "/" else path2

/-! ## `processDirectory` -/

/-- The `os.FileInfo` of an entry, as far as the program reads it. -/
structure FileInfo where
  IsDir : Bool

/-- One call of the walk function: the path, the file info (`none` is nil) and
the error the walk reports for the entry. -/
structure Visit where
  path : GoString
  info : Option FileInfo
  err : Option GoString

/-- The walk function `processDirectory` hands to `filepath.Walk`.  A nil
`info` comes only with an error, which is returned before `info` is read;
reading a nil `info` is a run-time panic, kept as an error result. -/
def walkFn (env : Env) (v : Visit) (w : World) : Option GoString × World :=
  match v.err with
  | some err => (some err, w)
  | none =>
    match v.info with
    | none => (some (str "panic: nil pointer dereference"), w)
    | some info =>
      if info.IsDir || !(Ext v.path == str ".go") ||
          Base v.path == str "function_timing.go" then
        (none, w)
      else
        addFunctionTiming env v.path
          { w with stdout := w.stdout ++ [str "处理文件: " ++ v.path ++ str "\n"] }

/-- The file tree as `filepath.Walk` meets it.  Each entry carries the path the
walk passes on (`filepath.Join` of the parent and the name); the children of a
directory are in the order of `readDirNames`. -/
inductive Entry where
  /-- An entry whose `Lstat` succeeds and that is not a directory. -/
  | file (path : GoString)
  /-- A directory, with the error of reading its names if any. -/
  | dir (path : GoString) (readErr : Option GoString) (children : List Entry)
  /-- An entry whose `Lstat` fails. -/
  | broken (path : GoString) (err : GoString)

mutual
/-- The function `walk` of `path/filepath`, for a walk function that never
answers `SkipDir` or `SkipAll`. -/
def walk (env : Env) : Entry → World → Option GoString × World
  | .file path, w => walkFn env ⟨path, some ⟨false⟩, none⟩ w
  | .broken path err, w => walkFn env ⟨path, none, some err⟩ w
  | .dir path readErr children, w =>
    match walkFn env ⟨path, some ⟨true⟩, readErr⟩ w with
    | (some err1, w1) => (some err1, w1)
    | (none, w1) =>
      match readErr with
      | some _ => (none, w1)
      | none => walkChildren env children w1
/-- The loop of `walk` over the names of a directory. -/
def walkChildren (env : Env) : List Entry → World → Option GoString × World
  | [], w => (none, w)
  | e :: es, w =>
    match walk env e w with
    | (some err, w1) => (some err, w1)
    | (none, w1) => walkChildren env es w1
end

/-- The function `processDirectory` of `embed_service.go`:
`filepath.Walk(dirPath, fn)` over the tree found at `dirPath`. -/
def processDirectory (env : Env) (root : Entry) (w : World) : Option GoString × World :=
  walk env root w

mutual
/-- The calls of the walk function a tree gives rise to when none of them
fails, in walk order; nothing below a directory that cannot be read. -/
def visits : Entry → List Visit
  | .file path => [⟨path, some ⟨false⟩, none⟩]
  | .broken path err => [⟨path, none, some err⟩]
  | .dir path readErr children =>
    ⟨path, some ⟨true⟩, readErr⟩ ::
      (match readErr with
       | some _ => []
       | none => visitsChildren children)
/-- The calls for a list of sibling entries. -/
def visitsChildren : List Entry → List Visit
  | [] => []
  | e :: es => visits e ++ visitsChildren es
end

/-- Calling the walk function on a sequence of entries in order, up to and
including the first call that returns an error. -/
def runVisits (env : Env) : List Visit → World → Option GoString × World
  | [], w => (none, w)
  | v :: vs, w =>
    match walkFn env v w with
    | (some err, w1) => (some err, w1)
    | (none, w1) => runVisits env vs w1

/-! ## Sample inputs -/

/-- The declaration `func Add(a, b int) int { return a + b }`. -/
def declAdd : FuncDecl :=
  { Recv := none
    Name := str "Add"
    Typ := { Params := [.mk [str "a", str "b"] (.Ident (str "int"))]
             Results := some [.mk [] (.Ident (str "int"))] }
    Body := some [.ReturnStmt [.BinaryExpr (.Ident (str "a")) .ADD (.Ident (str "b"))]] }

/-- A file `package calc` holding `Add` alone. -/
def fileAdd : File :=
  { Name := str "calc", Decls := [.func declAdd], Imports := [] }

/-- The method `func (s *Suite) Testing() { s.Run() }`. -/
def declTesting : FuncDecl :=
  { Recv := some [.mk [str "s"] (.StarExpr (.Ident (str "Suite")))]
    Name := str "Testing"
    Typ := { Params := [], Results := none }
    Body := some [.ExprStmt (.CallExpr (.SelectorExpr (.Ident (str "s")) (str "Run")) [])] }

/-- The declaration `func Test() {}`. -/
def declTest : FuncDecl :=
  { Recv := none, Name := str "Test", Typ := { Params := [], Results := none }, Body := some [] }

/-- A file holding a type declaration, the method `Testing` and `Test`. -/
def fileTesting : File :=
  { Name := str "suite"
    Decls := [.gen (.Other 84) 0, .func declTesting, .func declTest]
    Imports := [] }

/-- The declaration `func Sqrt(x float64) float64` without body. -/
def declSqrt : FuncDecl :=
  { Recv := none
    Name := str "Sqrt"
    Typ := { Params := [.mk [str "x"] (.Ident (str "float64"))]
             Results := some [.mk [] (.Ident (str "float64"))] }
    Body := none }

/-- A file holding the bodiless `Sqrt` alone. -/
def fileSqrt : File :=
  { Name := str "math", Decls := [.func declSqrt], Imports := [] }

/-- A file that imports `time` under the local name `t` and nothing else:
`import t "time"`. -/
def fileNamedTime : File :=
  { Name := str "clock", Decls := [.gen .IMPORT 0], Imports := [⟨some (str "t"), str "time"⟩] }

/-- A file with the imports `"fmt"` and `"os"` and only a `Test` function. -/
def fileFmtOs : File :=
  { Name := str "tool"
    Decls := [.gen .IMPORT 0, .func { declTesting with Recv := none }]
    Imports := [⟨none, str "fmt"⟩, ⟨none, str "os"⟩] }

/-! ## The qualified name in the words of the specification -/

mutual
/-- The text of a type expression as written in the source, for the node kinds
a receiver type is made of. -/
def specTypeText : Expr → GoString
  | .Ident name => name
  | .StarExpr x => str "*" ++ specTypeText x
  | .ParenExpr x => str "(" ++ specTypeText x ++ str ")"
  | .SelectorExpr x sel => specTypeText x ++ str "." ++ sel
  | .IndexExpr x index => specTypeText x ++ str "[" ++ specTypeText index ++ str "]"
  | .IndexListExpr x indices => specTypeText x ++ str "[" ++ specTypeTextList indices ++ str "]"
  | _ => []
/-- The texts of a list of type arguments, separated by commas. -/
def specTypeTextList : List Expr → GoString
  | [] => []
  | e :: es =>
    match es with
    | [] => specTypeText e
    | _ :: _ => specTypeText e ++ str ", " ++ specTypeTextList es
end

/-- QualifiedName as the specification words it: `receiverType + "." + name`
when a receiver exists, else `name`, the receiver type being as written. -/
def specQualifiedName (d : FuncDecl) : GoString :=
  match d.Recv with
  | some (recv :: _) => specTypeText recv.type ++ str "." ++ d.Name
  | _ => d.Name

/-- Whether a receiver type is a named type `T` or a pointer `*T` to one. -/
def namedReceiver : Expr → Bool
  | .Ident _ => true
  | .StarExpr (.Ident _) => true
  | _ => false

/-- The method `func (l List[T]) Len() int` without its body. -/
def declLen : FuncDecl :=
  { Recv := some [.mk [str "l"] (.IndexExpr (.Ident (str "List")) (.Ident (str "T")))]
    Name := str "Len"
    Typ := { Params := [], Results := some [.mk [] (.Ident (str "int"))] }
    Body := none }

/-- The method `func (l *List[T]) Push(x T) {}`. -/
def declPush : FuncDecl :=
  { Recv := some
      [.mk [str "l"] (.StarExpr (.IndexExpr (.Ident (str "List")) (.Ident (str "T"))))]
    Name := str "Push"
    Typ := { Params := [.mk [str "x"] (.Ident (str "T"))], Results := none }
    Body := some [] }

/-- The method `func (c (Conn)) Close() {}`, with a parenthesised receiver type. -/
def declClose : FuncDecl :=
  { Recv := some [.mk [str "c"] (.ParenExpr (.Ident (str "Conn")))]
    Name := str "Close"
    Typ := { Params := [], Results := none }
    Body := some [] }

/-- The method `func (s *Server) Serve() {}`. -/
def declServe : FuncDecl :=
  { Recv := some [.mk [str "s"] (.StarExpr (.Ident (str "Server")))]
    Name := str "Serve"
    Typ := { Params := [], Results := none }
    Body := some [] }

/-! ## A sample directory -/

/-- A file `package b` with one function `func Run() {}`. -/
def fileB : File :=
  { Name := str "b"
    Decls := [.func { Recv := none, Name := str "Run", Typ := ⟨[], none⟩, Body := some [] }]
    Imports := [] }

/-- A parser that accepts one text only, a printer that prints a fixed text,
and writes that succeed. -/
def env0 : Env :=
  { readErr := fun path => str "open " ++ path ++ str ": no such file or directory"
    parse := fun _ src =>
      if src = str "package b\nfunc Run() {}\n" then .ok fileB
      else .error (str "1:1: expected package clause")
    fprint := fun _ => .ok (str "package b\n// printed\n")
    write := fun _ => .ok }

/-- The directory `repo` with `repo/a.go`, which does not parse, and then
`repo/b.go`, which does. -/
def tree0 : Entry :=
  .dir (str "repo") none [.file (str "repo/a.go"), .file (str "repo/b.go")]

/-- The contents of the two files of `tree0`, and nothing printed yet. -/
def world0 : World :=
  { disk := fun p =>
      if p = str "repo/a.go" then some (str "func")
      else if p = str "repo/b.go" then some (str "package b\nfunc Run() {}\n")
      else none
    stdout := [] }

/-- The world after the walk has met `repo/a.go`: its progress line is out. -/
def world1 : World :=
  { world0 with stdout := [str "处理文件: repo/a.go\n"] }

/-- The call of the walk function at a directory that cannot be read. -/
def visitPrivate : Visit :=
  { path := str "repo/private"
    info := some ⟨true⟩
    err := some (str "open repo/private: permission denied") }

/-! ## The support file `func_trace.go` -/

/-- The text of `vs/_runtime/func_trace.go`, the support file of the tool. -/
def funcTraceSource : GoString :=
  str ("package _runtime\n\ntype GoFunc struct \x7b\n\tId       int\n\tPkg      string\n" ++
    "\tReceiver Var\n\tName     string\n\tParams   []*Var\n\tResults  []*Var\n\x7d\n\n" ++
    "type Var struct \x7b\n\tName     string\n\tType     string\n\tBaseType string\n\x7d\n\n" ++
    "func TraceFunc(goFuncId int) \x7b\n\n\x7d\n\n")

/-- The function declarations of a file, in order. -/
def funcDecls (f : File) : List FuncDecl :=
  f.Decls.filterMap (fun x => match x with
    | .func d => some d
    | _ => none)

/-! ## Samples for the support file and for test files -/

/-- The declaration `func TraceFunc(goFuncId int) {}` of `func_trace.go`. -/
def declTraceFunc : FuncDecl :=
  { Recv := none
    Name := str "TraceFunc"
    Typ := { Params := [.mk [str "goFuncId"] (.Ident (str "int"))], Results := none }
    Body := some [] }

/-- The tree of `func_trace.go`: the types `GoFunc` and `Var`, then `TraceFunc`. -/
def fileFuncTrace : File :=
  { Name := str "_runtime"
    Decls := [.gen (.Other 84) 0, .gen (.Other 84) 1, .func declTraceFunc]
    Imports := [] }

/-- A stand-in printer: for each function declaration its name, one `;` for
each statement of its body, and a newline. -/
def printSizes (f : File) : GoString :=
  (funcDecls f).flatMap (fun d =>
    d.Name ++ List.replicate (d.Body.getD []).length 59 ++ str "\n")

/-- A parser that accepts the text of `func_trace.go` only, the stand-in
printer, and writes that succeed. -/
def env1 : Env :=
  { readErr := fun path => str "open " ++ path ++ str ": no such file or directory"
    parse := fun _ src =>
      if src = funcTraceSource then .ok fileFuncTrace
      else .error (str "1:1: expected package clause")
    fprint := fun f => .ok (printSizes f)
    write := fun _ => .ok }

/-- The tree at `repo` once the support package has been copied into it: the
directory `_runtime` with `func_trace.go`. -/
def treeBundle : Entry :=
  .dir (str "repo") none
    [.dir (str "repo/_runtime") none [.file (str "repo/_runtime/func_trace.go")]]

/-- The content of `repo/_runtime/func_trace.go` after the copy, and nothing
printed yet. -/
def worldBundle : World :=
  { disk := fun p =>
      if p = str "repo/_runtime/func_trace.go" then some funcTraceSource else none
    stdout := [] }

/-- The directory `repo` with the one file `repo/calc_test.go`. -/
def treeTest : Entry :=
  .dir (str "repo") none [.file (str "repo/calc_test.go")]

/-- The content of `repo/calc_test.go`, and nothing printed yet. -/
def worldTest : World :=
  { disk := fun p =>
      if p = str "repo/calc_test.go" then some (str "package b\nfunc Run() {}\n") else none
    stdout := [] }

/-- The method `func (c Conn) Close()` as it is read back after one run: the
printer has written the receiver type without parentheses, and the body holds
the pair of the first run, which named the method `unknown.Close`. -/
def declCloseOnce : FuncDecl :=
  { Recv := some [.mk [str "c"] (.Ident (str "Conn"))]
    Name := str "Close"
    Typ := { Params := [], Results := none }
    Body := some [startStmt, deferStmt (str "unknown.Close")] }

/-- A file `package net` holding the method `func (c (Conn)) Close() {}`. -/
def fileClose : File :=
  { Name := str "net", Decls := [.func declClose], Imports := [] }

/-- The file `fileClose` as it is read back after one run: the declaration of
the two imports, then the method. -/
def fileCloseOnce : File :=
  { Name := str "net"
    Decls := [.gen .IMPORT 0, .func declCloseOnce]
    Imports := [⟨none, str "fmt"⟩, ⟨none, str "time"⟩] }

/-- A parser that reads the source of `fileClose` and the text the stand-in
printer writes for its first run, the stand-in printer, and writes that
succeed. -/
def env2 : Env :=
  { readErr := fun path => str "open " ++ path ++ str ": no such file or directory"
    parse := fun _ src =>
      if src = str "package net\nfunc (c (Conn)) Close() {}\n" then .ok fileClose
      else if src = str "Close;;\n" then .ok fileCloseOnce
      else .error (str "1:1: expected package clause")
    fprint := fun f => .ok (printSizes f)
    write := fun _ => .ok }

/-- The file `conn.go` with the source of `fileClose`, and nothing printed yet. -/
def worldClose : World :=
  { disk := fun p =>
      if p = str "conn.go" then some (str "package net\nfunc (c (Conn)) Close() {}\n") else none
    stdout := [] }

/-- The declarations of a file that are neither function declarations nor
declarations of imports (types, constants, variables, bad declarations). -/
def otherDecls (f : File) : List Decl :=
  f.Decls.filter (fun x => match x with
    | .func _ => false
    | .gen .IMPORT _ => false
    | _ => true)

end StaticEmbed

namespace StaticEmbed

/-! ## The test-name check -/

theorem str_Test_length : (str "Test").length = 4 := by decide

/-- The check of lines 68 and 69 holds exactly of the names that start with the
bytes of `Test`. -/
theorem testCheck_iff (name : GoString) :
    (name == str "Test" ||
      (decide (name.length > 4) && name.take 4 == str "Test")) = true ↔
      str "Test" <+: name := by
  rw [List.prefix_iff_eq_take, str_Test_length]
  simp only [Bool.or_eq_true, Bool.and_eq_true, beq_iff_eq, decide_eq_true_eq]
  constructor
  · rintro (h | ⟨_, h⟩)
    · subst h; decide
    · exact h.symm
  · intro h
    have hlen : 4 ≤ name.length := by
      have h1 := congrArg List.length h
      rw [str_Test_length, List.length_take] at h1
      omega
    rcases Nat.lt_or_ge 4 name.length with h4 | h4
    · exact Or.inr ⟨h4, h.symm⟩
    · left
      rw [h, List.take_of_length_le h4]

/-! ## The callback at one declaration -/

theorem applyPre_test (d : FuncDecl) (h : str "Test" <+: d.Name) : applyPre d = (d, []) := by
  unfold applyPre
  rw [if_pos ((testCheck_iff d.Name).2 h)]

theorem applyPre_some (d : FuncDecl) (B : List Stmt) (hB : d.Body = some B)
    (h : ¬ str "Test" <+: d.Name) :
    applyPre d =
      ({ d with Body := some (startStmt :: deferStmt (getFunctionName d) :: B) },
        [progressLine (getFunctionName d)]) := by
  unfold applyPre
  rw [if_neg (fun hc => h ((testCheck_iff d.Name).1 hc))]
  cases B with
  | nil => simp [hB]
  | cons b bs => simp [hB]

theorem applyPre_none (d : FuncDecl) (hB : d.Body = none) : (applyPre d).1 = d := by
  unfold applyPre
  split
  · rfl
  · simp [hB]

theorem getFunctionName_body (d : FuncDecl) (b : Option (List Stmt)) :
    getFunctionName { d with Body := b } = getFunctionName d := rfl

/-! ## The traversal over a file -/

theorem applyDecls_fst (ds : List Decl) :
    (applyDecls ds).1 = ds.map (fun d => (applyDecl d).1) := by
  induction ds with
  | nil => rfl
  | cons d ds ih => simp [applyDecls, ih]

theorem instrument_Decls (file : File) :
    (instrument file).1.Decls = file.Decls.map (fun d => (applyDecl d).1) := by
  have h : ∀ (f : File) (p : GoString), (AddImport f p).Decls = f.Decls := by
    intro f p
    unfold AddImport AddNamedImport
    split <;> rfl
  simp [instrument, Apply, applyDecls_fst, h]

theorem instrument_getElem (file : File) (i : Nat) (d : FuncDecl)
    (hd : file.Decls[i]? = some (.func d)) :
    (instrument file).1.Decls[i]? = some (.func (applyPre d).1) := by
  rw [instrument_Decls, List.getElem?_map, hd]
  rfl

theorem instrument_once (file : File) (i : Nat) (d : FuncDecl) (B : List Stmt)
    (hd : file.Decls[i]? = some (.func d)) (hB : d.Body = some B)
    (hname : ¬ str "Test" <+: d.Name) :
    (instrument file).1.Decls[i]? =
      some (.func { d with Body := some (startStmt :: deferStmt (getFunctionName d) :: B) }) := by
  rw [instrument_getElem file i d hd, applyPre_some d B hB hname]

/-! ## Claims on the inserted statements -/

/-- C2: a function declaration whose name starts with `Test` (the name `Test`
itself, `Testing`, `Tester`, `TestX`, ...) is left as it is by one run, whatever
its receiver and body: no statement is inserted. -/
theorem C2_test_decl_unchanged (file : File) (i : Nat) (d : FuncDecl)
    (hd : file.Decls[i]? = some (.func d)) (hname : str "Test" <+: d.Name) :
    (instrument file).1.Decls[i]? = some (.func d) := by
  rw [instrument_getElem file i d hd, applyPre_test d hname]

/-- The method `func (s *Suite) Testing() { s.Run() }` keeps its one statement,
and `func Test() {}` keeps its empty body. -/
theorem C2_test_decl_unchanged_witness :
    (fileTesting.Decls[1]? = some (.func declTesting) ∧ str "Test" <+: declTesting.Name) ∧
    (instrument fileTesting).1.Decls[1]? = some (.func declTesting) ∧
    (fileTesting.Decls[2]? = some (.func declTest) ∧ str "Test" <+: declTest.Name) ∧
    (instrument fileTesting).1.Decls[2]? = some (.func declTest) :=
  ⟨⟨rfl, by decide⟩, C2_test_decl_unchanged fileTesting 1 declTesting rfl (by decide),
    ⟨rfl, by decide⟩, C2_test_decl_unchanged fileTesting 2 declTest rfl (by decide)⟩

/-- C3: a function declaration without body is left as it is by one run,
whatever its name; the body is still absent afterwards. -/
theorem C3_absent_body_untouched (file : File) (i : Nat) (d : FuncDecl)
    (hd : file.Decls[i]? = some (.func d)) (hB : d.Body = none) :
    (instrument file).1.Decls[i]? = some (.func d) ∧
      ∀ d1, (instrument file).1.Decls[i]? = some (.func d1) → d1.Body = none := by
  have h : (instrument file).1.Decls[i]? = some (.func d) := by
    rw [instrument_getElem file i d hd, applyPre_none d hB]
  refine ⟨h, ?_⟩
  intro d1 h1
  rw [h] at h1
  cases h1
  exact hB

/-- The bodiless `func Sqrt(x float64) float64` stays bodiless. -/
theorem C3_absent_body_untouched_witness :
    (fileSqrt.Decls[0]? = some (.func declSqrt) ∧ declSqrt.Body = none) ∧
    (instrument fileSqrt).1.Decls[0]? = some (.func declSqrt) :=
  ⟨⟨rfl, rfl⟩, (C3_absent_body_untouched fileSqrt 0 declSqrt rfl rfl).1⟩

theorem addFunctionTiming_ok (env : Env) (filePath : GoString) (w : World) (file : File)
    (buf : GoString) (hparse : ParseFile env filePath w = .ok file)
    (hprint : env.fprint (instrument file).1 = .ok buf) (hwrite : env.write filePath = .ok) :
    addFunctionTiming env filePath w =
      (none, ⟨setFile w.disk filePath buf, w.stdout ++ (instrument file).2⟩) := by
  unfold addFunctionTiming
  rw [hparse]
  simp only [hprint, WriteFile, hwrite]

/-- C4: the pipeline is not idempotent.  A first run on a file with a
qualifying declaration (body `B`) writes the printed tree, in which the body is
the pair followed by `B`.  When the second run reads that text back (the
declaration with its name and with the body the first run left), the tree it
prints has the body `__start := time.Now()`, deferred report, `__start :=
time.Now()`, deferred report, then `B`: two pairs, four statements more than
`B`, not the body of one run; the newer report carries the name computed from
the declaration as read back, the older one the name of the first run. -/
theorem C4_second_run_doubles (env : Env) (filePath : GoString) (w : World)
    (file file2 : File) (out1 out2 : GoString) (i j : Nat) (d d2 : FuncDecl) (B : List Stmt)
    (hparse1 : ParseFile env filePath w = .ok file)
    (hd : file.Decls[i]? = some (.func d)) (hB : d.Body = some B)
    (hname : ¬ str "Test" <+: d.Name)
    (hprint1 : env.fprint (instrument file).1 = .ok out1)
    (hwrite : env.write filePath = .ok)
    (hparse2 : env.parse filePath out1 = .ok file2)
    (hd2 : file2.Decls[j]? = some (.func d2)) (hname2 : d2.Name = d.Name)
    (hB2 : d2.Body = some ([startStmt, deferStmt (getFunctionName d)] ++ B))
    (hprint2 : env.fprint (instrument file2).1 = .ok out2) :
    addFunctionTiming env filePath w =
        (none, ⟨setFile w.disk filePath out1, w.stdout ++ (instrument file).2⟩) ∧
      (instrument file).1.Decls[i]? =
        some (.func { d with Body := some ([startStmt, deferStmt (getFunctionName d)] ++ B) }) ∧
      ParseFile env filePath (addFunctionTiming env filePath w).2 = .ok file2 ∧
      (instrument file2).1.Decls[j]? =
        some (.func { d2 with
          Body := some ([startStmt, deferStmt (getFunctionName d2),
            startStmt, deferStmt (getFunctionName d)] ++ B) }) ∧
      ([startStmt, deferStmt (getFunctionName d2),
        startStmt, deferStmt (getFunctionName d)] ++ B).length = B.length + 4 ∧
      [startStmt, deferStmt (getFunctionName d2),
          startStmt, deferStmt (getFunctionName d)] ++ B ≠
        [startStmt, deferStmt (getFunctionName d)] ++ B ∧
      (addFunctionTiming env filePath (addFunctionTiming env filePath w).2).1 = none ∧
      (addFunctionTiming env filePath (addFunctionTiming env filePath w).2).2.disk filePath =
        some out2 ∧
      startStmt =
        .AssignStmt [.Ident (str "__start")] .DEFINE
          [.CallExpr (.SelectorExpr (.Ident (str "time")) (str "Now")) []] ∧
      (∀ n, deferStmt n =
        .DeferStmt (.CallExpr (.FuncLit (some []) none
          [.ExprStmt (.CallExpr (.SelectorExpr (.Ident (str "fmt")) (str "Printf"))
            [.BasicLit .STRING (str "\"函数 " ++ n ++ str " 耗时: %v\\n\""),
             .CallExpr (.SelectorExpr (.Ident (str "time")) (str "Since"))
               [.Ident (str "__start")]])]) [])) := by
  have hrun1 := addFunctionTiming_ok env filePath w file out1 hparse1 hprint1 hwrite
  have hP2 : ParseFile env filePath (addFunctionTiming env filePath w).2 = .ok file2 := by
    rw [hrun1]
    simp only [ParseFile, setFile, if_true]
    exact hparse2
  have hrun2 := addFunctionTiming_ok env filePath _ file2 out2 hP2 hprint2 hwrite
  have hname2' : ¬ str "Test" <+: d2.Name := by
    rw [hname2]
    exact hname
  refine ⟨hrun1, instrument_once file i d B hd hB hname, hP2, ?_, ?_, ?_, ?_, ?_, rfl,
    fun _ => rfl⟩
  · rw [instrument_once file2 j d2 _ hd2 hB2 hname2']
    rfl
  · simp only [List.length_append, List.length_cons, List.length_nil]
    omega
  · intro heq
    have hlen := congrArg List.length heq
    simp only [List.length_append, List.length_cons, List.length_nil] at hlen
    omega
  · rw [hrun2]
  · rw [hrun2]
    simp only [setFile, if_true]

/-- Two runs on `conn.go`, which holds `func (c (Conn)) Close() {}`: the first
run reports `unknown.Close`; read back, the receiver is `Conn`, so the second
run puts a pair reporting `Conn.Close` in front of the first pair. -/
theorem C4_second_run_doubles_witness :
    (ParseFile env2 (str "conn.go") worldClose = .ok fileClose ∧
      fileClose.Decls[0]? = some (.func declClose) ∧ declClose.Body = some [] ∧
      ¬ str "Test" <+: declClose.Name ∧
      env2.fprint (instrument fileClose).1 = .ok (str "Close;;\n") ∧
      env2.write (str "conn.go") = .ok ∧
      env2.parse (str "conn.go") (str "Close;;\n") = .ok fileCloseOnce ∧
      fileCloseOnce.Decls[1]? = some (.func declCloseOnce) ∧
      declCloseOnce.Name = declClose.Name ∧
      declCloseOnce.Body = some ([startStmt, deferStmt (getFunctionName declClose)] ++ []) ∧
      env2.fprint (instrument fileCloseOnce).1 = .ok (str "Close;;;;\n")) ∧
    (instrument fileCloseOnce).1.Decls[1]? =
      some (.func { declCloseOnce with
        Body := some [startStmt, deferStmt (str "Conn.Close"),
          startStmt, deferStmt (str "unknown.Close")] }) ∧
    (addFunctionTiming env2 (str "conn.go")
        (addFunctionTiming env2 (str "conn.go") worldClose).2).2.disk (str "conn.go") =
      some (str "Close;;;;\n") :=
  ⟨⟨rfl, rfl, rfl, by decide, rfl, rfl, rfl, rfl, rfl, rfl, rfl⟩,
    (C4_second_run_doubles env2 (str "conn.go") worldClose fileClose fileCloseOnce
      (str "Close;;\n") (str "Close;;;;\n") 0 1 declClose declCloseOnce []
      rfl rfl rfl (by decide) rfl rfl rfl rfl rfl rfl rfl).2.2.2.1,
    (C4_second_run_doubles env2 (str "conn.go") worldClose fileClose fileCloseOnce
      (str "Close;;\n") (str "Close;;;;\n") 0 1 declClose declCloseOnce []
      rfl rfl rfl (by decide) rfl rfl rfl rfl rfl rfl rfl).2.2.2.2.2.2.2.1⟩

/-! ## Imports -/

theorem AddImport_Imports (f : File) (path : GoString) :
    (AddImport f path).Imports =
      f.Imports ++ (if imports f [] path then [] else [newImport [] path]) := by
  unfold AddImport AddNamedImport
  split <;> simp [*]

theorem instrument_Imports (file : File) :
    (instrument file).1.Imports =
      file.Imports ++ (if imports file [] (str "time") then [] else [newImport [] (str "time")])
        ++ (if imports file [] (str "fmt") then [] else [newImport [] (str "fmt")]) := by
  have hfmt : imports (AddImport file (str "time")) [] (str "fmt") =
      imports file [] (str "fmt") := by
    unfold AddImport AddNamedImport
    split
    · rfl
    · have hne : (str "time" == str "fmt") = false := by decide
      simp [imports, newImport, importPath, hne]
  show (AddImport (AddImport file (str "time")) (str "fmt")).Imports = _
  rw [AddImport_Imports, hfmt, AddImport_Imports]

theorem importPath_newImport (name path : GoString) :
    importPath (newImport name path) = path := rfl

theorem mem_paths_of_imports (f : File) (name path : GoString)
    (h : imports f name path = true) : path ∈ f.Imports.map importPath := by
  unfold imports at h
  rw [List.any_eq_true] at h
  obtain ⟨s, hs, hcond⟩ := h
  simp only [Bool.and_eq_true, beq_iff_eq] at hcond
  exact List.mem_map.2 ⟨s, hs, hcond.2⟩

/-- C5: after one run on any parsed file, whatever its declarations (none, only
`Test` functions, only bodiless ones), the imports of the file contain both the
path `time` and the path `fmt`: the two calls of `AddImport` come before the
traversal and do not depend on it. -/
theorem C5_imports_ensured (file : File) :
    str "time" ∈ (instrument file).1.Imports.map importPath ∧
      str "fmt" ∈ (instrument file).1.Imports.map importPath := by
  rw [instrument_Imports]
  constructor
  · cases h : imports file [] (str "time")
    · simp [importPath_newImport]
    · have := mem_paths_of_imports file [] _ h
      simp only [List.map_append, List.mem_append]
      exact Or.inl (Or.inl this)
  · cases h : imports file [] (str "fmt")
    · simp [importPath_newImport]
    · have := mem_paths_of_imports file [] _ h
      simp only [List.map_append, List.mem_append]
      exact Or.inl (Or.inl this)

/-- C6, as stated, fails: a file whose only import is `import t "time"` has one
entry for the path `time` before the run and two after it. -/
theorem C6_named_import_duplicated :
    (fileNamedTime.Imports.map importPath).count (str "time") = 1 ∧
      ((instrument fileNamedTime).1.Imports.map importPath).count (str "time") = 2 := by
  decide

/-- C6, amended: the import ensurer only adds: every import present before
the run is still present after it, and so is every import path; and for each of
`time` and `fmt` the number of entries with that path is unchanged when the
file has an import of the path without a local name, and grows by exactly one
otherwise (also when the path is imported only under a name).
`FileVisitor.AddRuntimeIfNeed` makes the same two calls and leaves the same
imports. -/
theorem C6_imports_only_added (file : File) :
    (∀ m, (FileVisitor.AddRuntimeIfNeed ⟨file, m⟩).File.Imports = (instrument file).1.Imports) ∧
    (∀ s ∈ file.Imports, s ∈ (instrument file).1.Imports) ∧
    (∀ p ∈ file.Imports.map importPath, p ∈ (instrument file).1.Imports.map importPath) ∧
      ((instrument file).1.Imports.map importPath).count (str "time") =
        (file.Imports.map importPath).count (str "time") +
          (if imports file [] (str "time") then 0 else 1) ∧
      ((instrument file).1.Imports.map importPath).count (str "fmt") =
        (file.Imports.map importPath).count (str "fmt") +
          (if imports file [] (str "fmt") then 0 else 1) := by
  have h1 : (str "fmt" == str "time") = false := by decide
  have h2 : (str "time" == str "fmt") = false := by decide
  refine ⟨fun _ => rfl, ?_⟩
  rw [instrument_Imports]
  refine ⟨?_, ?_, ?_, ?_⟩
  · intro s hs
    simp only [List.mem_append]
    exact Or.inl (Or.inl hs)
  · intro q hq
    simp only [List.map_append, List.mem_append]
    exact Or.inl (Or.inl hq)
  · cases imports file [] (str "time") <;> cases imports file [] (str "fmt") <;>
      simp [importPath_newImport, List.count_cons, h1]
  · cases imports file [] (str "time") <;> cases imports file [] (str "fmt") <;>
      simp [importPath_newImport, List.count_cons, h2]

/-! ## Qualified names -/

theorem str_star_unknown : str "*unknown" ++ str "." = str "*unknown." := by decide

theorem str_unknown : str "unknown" ++ str "." = str "unknown." := by decide

/-- C7: a method `M` with receiver type `*T`, `T` a named type, is named
`*T.M` by `getFunctionName`, and this is the name in the format literal of the
report inserted into its body; with receiver type `T` the name is `T.M`, and a
plain function `M` is named `M`. -/
theorem C7_pointer_receiver_name (names : List GoString) (rest : List Field) (T M : GoString)
    (typ : FuncType) (body : Option (List Stmt)) (B : List Stmt) :
    getFunctionName ⟨some (.mk names (.StarExpr (.Ident T)) :: rest), M, typ, body⟩ =
        str "*" ++ T ++ str "." ++ M ∧
      getFunctionName ⟨some (.mk names (.Ident T) :: rest), M, typ, body⟩ =
        T ++ str "." ++ M ∧
      getFunctionName ⟨none, M, typ, body⟩ = M ∧
      (applyPre ⟨some (.mk names (.StarExpr (.Ident T)) :: rest), M, typ, some B⟩).1.Body =
        (if str "Test" <+: M then some B
         else some (startStmt :: deferStmt (str "*" ++ T ++ str "." ++ M) :: B)) ∧
      deferStmt (str "*" ++ T ++ str "." ++ M) =
        .DeferStmt (.CallExpr (.FuncLit (some []) none
          [.ExprStmt (.CallExpr (.SelectorExpr (.Ident (str "fmt")) (str "Printf"))
            [.BasicLit .STRING
               (str "\"函数 " ++ (str "*" ++ T ++ str "." ++ M) ++ str " 耗时: %v\\n\""),
             .CallExpr (.SelectorExpr (.Ident (str "time")) (str "Since"))
               [.Ident (str "__start")]])]) []) := by
  refine ⟨rfl, rfl, rfl, ?_, rfl⟩
  by_cases h : str "Test" <+: M
  · rw [if_pos h, applyPre_test _ h]
  · rw [if_neg h, applyPre_some _ B rfl h]
    rfl

/-- C8, as stated, fails: for the generic receivers `List[T]` and `*List[T]`
and the parenthesised receiver `(Conn)` the computed name is `unknown.Len`,
`*unknown.Push` and `unknown.Close`, not the receiver type as written followed
by the name. -/
theorem C8_generic_receiver_unknown :
    (getFunctionName declLen = str "unknown.Len" ∧
      specQualifiedName declLen = str "List[T].Len") ∧
    (getFunctionName declPush = str "*unknown.Push" ∧
      specQualifiedName declPush = str "*List[T].Push") ∧
    (getFunctionName declClose = str "unknown.Close" ∧
      specQualifiedName declClose = str "(Conn).Close") ∧
    getFunctionName declLen ≠ specQualifiedName declLen := by
  decide

/-- C8, amended: the qualified name is the receiver type as written, a dot and
the name when the receiver type is a named type `T` or a pointer `*T` to one,
and the name alone when there is no receiver; for a pointer to anything else
the receiver part is the placeholder `*unknown`, and for every other receiver
type expression it is the placeholder `unknown`. -/
theorem C8_qualified_name (d : FuncDecl) :
    (∀ recv rest, d.Recv = some (recv :: rest) → namedReceiver recv.type = true →
        getFunctionName d = specTypeText recv.type ++ str "." ++ d.Name ∧
          getFunctionName d = specQualifiedName d) ∧
      (∀ recv rest x, d.Recv = some (recv :: rest) → recv.type = .StarExpr x →
        namedReceiver recv.type = false → getFunctionName d = str "*unknown." ++ d.Name) ∧
      (∀ recv rest, d.Recv = some (recv :: rest) → (∀ x, recv.type ≠ .StarExpr x) →
        namedReceiver recv.type = false → getFunctionName d = str "unknown." ++ d.Name) ∧
      (d.Recv = none ∨ d.Recv = some [] →
        getFunctionName d = d.Name ∧ getFunctionName d = specQualifiedName d) := by
  refine ⟨?_, ?_, ?_, ?_⟩
  · intro recv rest hr hn
    cases htype : recv.type with
    | Ident n => simp [getFunctionName, specQualifiedName, hr, htype, specTypeText]
    | StarExpr x =>
      cases x with
      | Ident n => simp [getFunctionName, specQualifiedName, hr, htype, specTypeText]
      | _ => simp [htype, namedReceiver] at hn
    | _ => simp [htype, namedReceiver] at hn
  · intro recv rest x hr hx hn
    rw [← str_star_unknown]
    cases x with
    | Ident n => simp [hx, namedReceiver] at hn
    | _ => simp [getFunctionName, hr, hx]
  · intro recv rest hr hx hn
    rw [← str_unknown]
    cases htype : recv.type with
    | Ident n => simp [htype, namedReceiver] at hn
    | StarExpr x => exact absurd htype (hx x)
    | _ => simp [getFunctionName, hr, htype]
  · rintro (h | h) <;> simp [getFunctionName, specQualifiedName, h]

/-- The cases of C8 at `(s *Server) Serve`, `(l *List[T]) Push`,
`(l List[T]) Len` and the plain function `Add`. -/
theorem C8_qualified_name_witness :
    getFunctionName declServe = str "*Server.Serve" ∧
      getFunctionName declPush = str "*unknown.Push" ∧
      getFunctionName declLen = str "unknown.Len" ∧
      getFunctionName declAdd = str "Add" :=
  ⟨((C8_qualified_name declServe).1 _ _ rfl rfl).1,
    (C8_qualified_name declPush).2.1 _ _ _ rfl rfl rfl,
    (C8_qualified_name declLen).2.2.1 _ _ rfl (fun _ h => by cases h) rfl,
    ((C8_qualified_name declAdd).2.2.2 (Or.inl rfl)).1⟩

/-! ## The directory walk -/

theorem runVisits_append (env : Env) (xs ys : List Visit) (w : World) :
    runVisits env (xs ++ ys) w =
      match runVisits env xs w with
      | (some err, w1) => (some err, w1)
      | (none, w1) => runVisits env ys w1 := by
  induction xs generalizing w with
  | nil => rfl
  | cons x xs ih =>
    simp only [List.cons_append, runVisits]
    rcases hx : walkFn env x w with ⟨_ | e, w1⟩
    · exact ih w1
    · rfl

theorem runVisits_single (env : Env) (v : Visit) (w : World) :
    runVisits env [v] w = walkFn env v w := by
  simp only [runVisits]
  rcases walkFn env v w with ⟨_ | e, w1⟩ <;> rfl

theorem walkFn_err (env : Env) (path : GoString) (info : Option FileInfo) (e : GoString)
    (w : World) : walkFn env ⟨path, info, some e⟩ w = (some e, w) := rfl

mutual
/-- The recursive walk makes the calls of `visits`, in order, up to the first
one that fails. -/
theorem walk_eq_runVisits (env : Env) :
    ∀ (e : Entry) (w : World), walk env e w = runVisits env (visits e) w
  | .file path, w => by
    rw [walk, visits, runVisits_single]
  | .broken path err, w => by
    rw [walk, visits, runVisits_single]
  | .dir path (some e) children, w => by
    rw [walk, visits, runVisits_single, walkFn_err]
  | .dir path none children, w => by
    rw [walk, visits]
    simp only [runVisits]
    rcases walkFn env ⟨path, some ⟨true⟩, none⟩ w with ⟨_ | e, w1⟩
    · exact walkChildren_eq_runVisits env children w1
    · rfl
theorem walkChildren_eq_runVisits (env : Env) :
    ∀ (es : List Entry) (w : World),
      walkChildren env es w = runVisits env (visitsChildren es) w
  | [], w => by
    rw [walkChildren, visitsChildren]
    rfl
  | e :: es, w => by
    rw [walkChildren, visitsChildren, runVisits_append, ← walk_eq_runVisits env e w]
    rcases walk env e w with ⟨_ | err, w1⟩
    · exact walkChildren_eq_runVisits env es w1
    · rfl
end

theorem WriteFile_disk (env : Env) (filePath data : GoString) (w : World) (p : GoString)
    (hp : p ≠ filePath) : (WriteFile env filePath data w).2.disk p = w.disk p := by
  unfold WriteFile
  cases env.write filePath <;> simp [setFile, hp]

theorem addFunctionTiming_disk (env : Env) (filePath : GoString) (w : World) (p : GoString)
    (hp : p ≠ filePath) : (addFunctionTiming env filePath w).2.disk p = w.disk p := by
  unfold addFunctionTiming
  cases ParseFile env filePath w with
  | error err => rfl
  | ok file =>
    simp only
    cases env.fprint (instrument file).1 with
    | error err => rfl
    | ok buf => rw [WriteFile_disk env filePath buf _ p hp]

theorem walkFn_disk (env : Env) (v : Visit) (w : World) (p : GoString) (hp : p ≠ v.path) :
    (walkFn env v w).2.disk p = w.disk p := by
  unfold walkFn
  cases v.err with
  | some e => rfl
  | none =>
    cases v.info with
    | none => rfl
    | some info =>
      simp only
      split
      · rfl
      · rw [addFunctionTiming_disk env v.path _ p hp]

theorem runVisits_disk (env : Env) (vs : List Visit) (w : World) (p : GoString)
    (hp : p ∉ vs.map Visit.path) : (runVisits env vs w).2.disk p = w.disk p := by
  induction vs generalizing w with
  | nil => rfl
  | cons v vs ih =>
    simp only [List.map_cons, List.mem_cons, not_or] at hp
    have h1 := walkFn_disk env v w p hp.1
    simp only [runVisits]
    rcases hv : walkFn env v w with ⟨_ | e, w1⟩
    · rw [hv] at h1
      simp only [ih w1 hp.2]
      exact h1
    · rw [hv] at h1
      exact h1

/-- C9: halt on first failure.  When the walk meets the entries `before`, then
`fk`, then `after`, every call before `fk` returns no error and the call at `fk`
returns the error `err`, then `processDirectory` returns `err` and the world it
leaves is the one right after the call at `fk`: no entry after `fk` is
processed, and every file that is not among the entries up to `fk` has the
content it had before the run. -/
theorem C9_halt_on_first_failure (env : Env) (root : Entry) (w w1 w2 : World)
    (before after : List Visit) (fk : Visit) (err : GoString)
    (hsplit : visits root = before ++ fk :: after)
    (hbefore : runVisits env before w = (none, w1))
    (hfail : walkFn env fk w1 = (some err, w2)) :
    processDirectory env root w = (some err, w2) ∧
      (processDirectory env root w).2 = (runVisits env (before ++ [fk]) w).2 ∧
      ∀ v ∈ after, v.path ∉ (before ++ [fk]).map Visit.path →
        (processDirectory env root w).2.disk v.path = w.disk v.path := by
  have hrun : runVisits env (before ++ [fk]) w = (some err, w2) := by
    rw [runVisits_append, hbefore]
    simp only [runVisits_single, hfail]
  have hall : processDirectory env root w = (some err, w2) := by
    unfold processDirectory
    rw [walk_eq_runVisits, hsplit, runVisits_append, hbefore]
    simp only [runVisits, hfail]
  refine ⟨hall, ?_, ?_⟩
  · rw [hall, hrun]
  · intro v _ hv
    rw [hall]
    have := runVisits_disk env (before ++ [fk]) w v.path hv
    rw [hrun] at this
    exact this

/-- In `repo`, `a.go` does not parse and comes before `b.go`: the walk returns
the parse error and `b.go` keeps its text. -/
theorem C9_halt_on_first_failure_witness :
    (visits tree0 =
        [⟨str "repo", some ⟨true⟩, none⟩] ++
          ⟨str "repo/a.go", some ⟨false⟩, none⟩ :: [⟨str "repo/b.go", some ⟨false⟩, none⟩] ∧
      runVisits env0 [⟨str "repo", some ⟨true⟩, none⟩] world0 = (none, world0) ∧
      walkFn env0 ⟨str "repo/a.go", some ⟨false⟩, none⟩ world0 =
        (some (str "解析文件失败: 1:1: expected package clause"), world1)) ∧
    processDirectory env0 tree0 world0 =
      (some (str "解析文件失败: 1:1: expected package clause"), world1) ∧
    (processDirectory env0 tree0 world0).2.disk (str "repo/b.go") =
      world0.disk (str "repo/b.go") :=
  ⟨⟨rfl, rfl, rfl⟩,
    (C9_halt_on_first_failure env0 tree0 world0 world0 world1
      [⟨str "repo", some ⟨true⟩, none⟩] [⟨str "repo/b.go", some ⟨false⟩, none⟩]
      ⟨str "repo/a.go", some ⟨false⟩, none⟩ _ rfl rfl rfl).1,
    (C9_halt_on_first_failure env0 tree0 world0 world0 world1
      [⟨str "repo", some ⟨true⟩, none⟩] [⟨str "repo/b.go", some ⟨false⟩, none⟩]
      ⟨str "repo/a.go", some ⟨false⟩, none⟩ _ rfl rfl rfl).2.2
      ⟨str "repo/b.go", some ⟨false⟩, none⟩ (List.mem_singleton.2 rfl) (by decide)⟩

/-! ## Which entries reach the per-file pipeline -/

theorem WriteFile_stdout (env : Env) (filePath data : GoString) (w : World) :
    (WriteFile env filePath data w).2.stdout = w.stdout := by
  unfold WriteFile
  cases env.write filePath <;> rfl

theorem addFunctionTiming_stdout (env : Env) (filePath : GoString) (w : World) :
    w.stdout <+: (addFunctionTiming env filePath w).2.stdout := by
  unfold addFunctionTiming
  cases ParseFile env filePath w with
  | error err => exact List.prefix_refl _
  | ok file =>
    simp only
    cases env.fprint (instrument file).1 with
    | error err => exact List.prefix_append _ _
    | ok buf =>
      rw [WriteFile_stdout]
      exact List.prefix_append _ _

/-- C10, as stated, fails: a directory that cannot be read is met by the walk,
is not routed to the pipeline, and is not skipped without error: the walk
function returns the error, which ends the whole walk before `repo/z.go`. -/
theorem C10_unreadable_dir_returns_error :
    visitPrivate.info = some ⟨true⟩ ∧
      walkFn env0 visitPrivate world0 =
        (some (str "open repo/private: permission denied"), world0) ∧
      processDirectory env0
          (.dir (str "repo") none
            [.dir (str "repo/private") (some (str "open repo/private: permission denied")) [],
             .file (str "repo/z.go")])
          world0 =
        (some (str "open repo/private: permission denied"), world0) :=
  ⟨rfl, rfl, rfl⟩

/-- C10, amended: an entry the walk reports with an error is not routed and
its error is returned, the world unchanged.  An entry reported without error is
routed to the per-file pipeline (after its progress line) if and only if it is
not a directory, its extension is exactly `.go` and its base name is not
`function_timing.go`; every other such entry is skipped without error and
without any change. -/
theorem C10_routing (env : Env) (v : Visit) (w : World) :
    (∀ e, v.err = some e → walkFn env v w = (some e, w)) ∧
      (∀ info, v.err = none → v.info = some info →
        ((info.IsDir = false ∧ Ext v.path = str ".go" ∧
            Base v.path ≠ str "function_timing.go") →
          walkFn env v w =
            addFunctionTiming env v.path
              { w with stdout := w.stdout ++ [str "处理文件: " ++ v.path ++ str "\n"] }) ∧
        (¬ (info.IsDir = false ∧ Ext v.path = str ".go" ∧
            Base v.path ≠ str "function_timing.go") →
          walkFn env v w = (none, w)) ∧
        ((w.stdout ++ [str "处理文件: " ++ v.path ++ str "\n"]) <+: (walkFn env v w).2.stdout ↔
          (info.IsDir = false ∧ Ext v.path = str ".go" ∧
            Base v.path ≠ str "function_timing.go"))) := by
  refine ⟨?_, ?_⟩
  · intro e he
    unfold walkFn
    rw [he]
  · intro info herr hinfo
    have hyes : (info.IsDir = false ∧ Ext v.path = str ".go" ∧
          Base v.path ≠ str "function_timing.go") →
        walkFn env v w =
          addFunctionTiming env v.path
            { w with stdout := w.stdout ++ [str "处理文件: " ++ v.path ++ str "\n"] } := by
      rintro ⟨h1, h2, h3⟩
      unfold walkFn
      simp [herr, hinfo, h1, h2, h3]
    have hno : ¬ (info.IsDir = false ∧ Ext v.path = str ".go" ∧
          Base v.path ≠ str "function_timing.go") → walkFn env v w = (none, w) := by
      intro hc
      unfold walkFn
      simp only [herr, hinfo]
      rw [if_pos]
      by_contra hne
      apply hc
      simp only [Bool.or_eq_true, Bool.not_eq_true', beq_eq_false_iff_ne, beq_iff_eq,
        not_or, Bool.not_eq_true, not_not] at hne
      exact ⟨hne.1.1, hne.1.2, hne.2⟩
    refine ⟨hyes, hno, ?_⟩
    constructor
    · intro hpre
      by_contra hc
      rw [hno hc] at hpre
      have := hpre.length_le
      simp at this
    · intro hc
      rw [hyes hc]
      exact addFunctionTiming_stdout env v.path
        { w with stdout := w.stdout ++ [str "处理文件: " ++ v.path ++ str "\n"] }

/-- The entry `repo/b.go` is routed, the entry `repo/function_timing.go` is
skipped, and an unreadable directory gives back its error. -/
theorem C10_routing_witness :
    walkFn env0 ⟨str "repo/b.go", some ⟨false⟩, none⟩ world0 =
        addFunctionTiming env0 (str "repo/b.go")
          { world0 with stdout := world0.stdout ++ [str "处理文件: repo/b.go\n"] } ∧
      walkFn env0 ⟨str "repo/function_timing.go", some ⟨false⟩, none⟩ world0 = (none, world0) ∧
      walkFn env0 visitPrivate world0 =
        (some (str "open repo/private: permission denied"), world0) :=
  ⟨((C10_routing env0 ⟨str "repo/b.go", some ⟨false⟩, none⟩ world0).2 ⟨false⟩ rfl rfl).1
      ⟨rfl, by decide, by decide⟩,
    ((C10_routing env0 ⟨str "repo/function_timing.go", some ⟨false⟩, none⟩ world0).2
      ⟨false⟩ rfl rfl).2.1 (by decide),
    (C10_routing env0 visitPrivate world0).1 _ rfl⟩

/-! ## Extension and base name of a path -/

theorem Ext_loop_scan (a b : GoString) (hb : ∀ c ∈ b, c ≠ slash ∧ c ≠ dot) :
    ∀ k, k ≤ b.length → Ext.loop (a ++ dot :: b) (a.length + 1 + k) = dot :: b := by
  intro k
  induction k with
  | zero =>
    intro _
    have hget : (a ++ dot :: b)[a.length]? = some dot := by
      rw [List.getElem?_append_right (Nat.le_refl _)]
      simp
    have hds : (dot == slash) = false := by decide
    simp [Ext.loop, hget, hds]
  | succ k ih =>
    intro hk
    have hlt : k < b.length := hk
    have hget : (a ++ dot :: b)[a.length + 1 + k]? = some b[k] := by
      rw [List.getElem?_append_right (by omega)]
      have : a.length + 1 + k - a.length = k + 1 := by omega
      rw [this, List.getElem?_cons_succ, List.getElem?_eq_getElem hlt]
    have hc := hb b[k] (List.getElem_mem hlt)
    have e : a.length + 1 + (k + 1) = (a.length + 1 + k) + 1 := by omega
    rw [e, Ext.loop, hget]
    simp only [beq_iff_eq, hc.1, hc.2, if_false]
    exact ih (by omega)

/-- The extension of a path that ends in a dot followed by bytes that are
neither dots nor slashes is that ending. -/
theorem Ext_append_dot (a b : GoString) (hb : ∀ c ∈ b, c ≠ slash ∧ c ≠ dot) :
    Ext (a ++ dot :: b) = dot :: b := by
  unfold Ext
  have hlen : (a ++ dot :: b).length = a.length + 1 + b.length := by
    simp only [List.length_append, List.length_cons]
    omega
  rw [hlen]
  exact Ext_loop_scan a b hb b.length (Nat.le_refl _)

theorem Base_strip_id (n : Nat) (p : GoString) (hl : p.getLast? ≠ some slash) :
    Base.strip n p = p := by
  cases n with
  | zero => rfl
  | succ n =>
    unfold Base.strip
    have : (p.getLast? == some slash) = false := by
      simpa using hl
    simp [this]

theorem Base_lastElem_scan (a b : GoString) (hb : ∀ c ∈ b, c ≠ slash) :
    ∀ k, k ≤ b.length → Base.lastElem (a ++ slash :: b) (a.length + 1 + k) = a.length + 1 := by
  intro k
  induction k with
  | zero =>
    intro _
    have hget : (a ++ slash :: b)[a.length]? = some slash := by
      rw [List.getElem?_append_right (Nat.le_refl _)]
      simp
    simp [Base.lastElem, hget]
  | succ k ih =>
    intro hk
    have hlt : k < b.length := hk
    have hget : (a ++ slash :: b)[a.length + 1 + k]? = some b[k] := by
      rw [List.getElem?_append_right (by omega)]
      have : a.length + 1 + k - a.length = k + 1 := by omega
      rw [this, List.getElem?_cons_succ, List.getElem?_eq_getElem hlt]
    have hc := hb b[k] (List.getElem_mem hlt)
    have e : a.length + 1 + (k + 1) = (a.length + 1 + k) + 1 := by omega
    rw [e, Base.lastElem, hget]
    simp only [beq_iff_eq, hc, if_false]
    exact ih (by omega)

/-- The base name of a path that ends in a slash followed by a non-empty name
without slash is that name. -/
theorem Base_append_slash (a b : GoString) (hb : ∀ c ∈ b, c ≠ slash) (hne : b ≠ []) :
    Base (a ++ slash :: b) = b := by
  have hl : (a ++ slash :: b).getLast? ≠ some slash := by
    obtain ⟨c, hc⟩ : ∃ c, b.getLast? = some c := by
      cases h : b.getLast? with
      | none => exact absurd (List.getLast?_eq_none_iff.1 h) hne
      | some c => exact ⟨c, rfl⟩
    have hmem : c ∈ b := List.mem_of_getLast?_eq_some hc
    have : (a ++ slash :: b).getLast? = some c := by
      rw [List.getLast?_append, List.getLast?_cons, hc]
      rfl
    rw [this]
    intro h
    exact hb c hmem (Option.some.inj h)
  have hlen : (a ++ slash :: b).length = a.length + 1 + b.length := by
    simp only [List.length_append, List.length_cons]
    omega
  have hdrop : (a ++ slash :: b).drop (a.length + 1) = b := by
    simp
  have hnil : ((a ++ slash :: b) == []) = false := by
    cases a <;> rfl
  have hb2 : (b == []) = false := by
    cases b with
    | nil => exact absurd rfl hne
    | cons => rfl
  unfold Base
  simp only [hnil, Bool.false_eq_true, if_false]
  rw [Base_strip_id _ _ hl, hlen, Base_lastElem_scan a b hb b.length (Nat.le_refl _), hdrop]
  simp [hb2]

/-- The base name of a non-empty path that does not end in a slash is `/` or a
suffix of the path. -/
theorem Base_suffix (p : GoString) (hl : p.getLast? ≠ some slash) :
    Base p = str "." ∨ Base p = str "/" ∨ Base p <:+ p := by
  unfold Base
  split
  · exact Or.inl rfl
  · simp only [Base_strip_id _ _ hl]
    split
    · exact Or.inr (Or.inl rfl)
    · exact Or.inr (Or.inr (List.drop_suffix _ _))

/-- An entry the walk reports without error, that is no directory, has the
extension `.go` and not the reserved base name, goes to `addFunctionTiming`. -/
theorem walkFn_routed (env : Env) (path : GoString) (w : World)
    (hext : Ext path = str ".go") (hbase : Base path ≠ str "function_timing.go") :
    walkFn env ⟨path, some ⟨false⟩, none⟩ w =
      addFunctionTiming env path
        { w with stdout := w.stdout ++ [str "处理文件: " ++ path ++ str "\n"] } := by
  unfold walkFn
  simp [hext, hbase]

/-! ## The support file in directory mode -/

theorem str_bundled_path :
    str "/_runtime/func_trace.go" = str "/_runtime" ++ slash :: str "func_trace.go" ∧
      str "/_runtime/func_trace.go" = str "/_runtime/func_trace" ++ dot :: str "go" ∧
      str ".go" = dot :: str "go" := by
  decide

theorem bundled_path_Ext (dir : GoString) :
    Ext (dir ++ str "/_runtime/func_trace.go") = str ".go" := by
  rw [str_bundled_path.2.1, str_bundled_path.2.2, ← List.append_assoc]
  exact Ext_append_dot _ _ (by decide)

theorem bundled_path_Base (dir : GoString) :
    Base (dir ++ str "/_runtime/func_trace.go") = str "func_trace.go" := by
  rw [str_bundled_path.1, ← List.append_assoc]
  exact Base_append_slash _ _ (by decide) (by decide)

set_option maxRecDepth 100000 in
/-- C11: the code, at its failing input.  The guard of the walk compares the
base name with `function_timing.go`, which is not the name of the support
file: for every root, the entry `_runtime/func_trace.go` under it has the
extension `.go` and the base name `func_trace.go` and is handed to
`addFunctionTiming`.  In the directory `repo` that holds the copied support
file, the walk prints the progress lines for it, `TraceFunc` gets `__start :=
time.Now()` and the deferred report in its empty body, and the file is
overwritten with the printer's text for that tree. -/
theorem C11_bundled_file_is_processed :
    (∀ (env : Env) (dir : GoString) (w : World),
        Ext (dir ++ str "/_runtime/func_trace.go") = str ".go" ∧
          Base (dir ++ str "/_runtime/func_trace.go") = str "func_trace.go" ∧
          walkFn env ⟨dir ++ str "/_runtime/func_trace.go", some ⟨false⟩, none⟩ w =
            addFunctionTiming env (dir ++ str "/_runtime/func_trace.go")
              { w with stdout := w.stdout ++
                  [str "处理文件: " ++ (dir ++ str "/_runtime/func_trace.go") ++ str "\n"] }) ∧
      str "func_trace.go" ≠ str "function_timing.go" ∧
      worldBundle.disk (str "repo/_runtime/func_trace.go") = some funcTraceSource ∧
      ParseFile env1 (str "repo/_runtime/func_trace.go") worldBundle = .ok fileFuncTrace ∧
      fileFuncTrace.Decls[2]? = some (.func declTraceFunc) ∧
      declTraceFunc.Body = some [] ∧
      (instrument fileFuncTrace).1.Decls[2]? =
        some (.func { declTraceFunc with
          Body := some
            [.AssignStmt [.Ident (str "__start")] .DEFINE
                [.CallExpr (.SelectorExpr (.Ident (str "time")) (str "Now")) []],
              deferStmt (str "TraceFunc")] }) ∧
      (processDirectory env1 treeBundle worldBundle).1 = none ∧
      (processDirectory env1 treeBundle worldBundle).2.stdout =
        [str "处理文件: repo/_runtime/func_trace.go\n", str "已为函数 TraceFunc 添加耗时统计\n"] ∧
      printSizes fileFuncTrace = str "TraceFunc\n" ∧
      (processDirectory env1 treeBundle worldBundle).2.disk
          (str "repo/_runtime/func_trace.go") = some (str "TraceFunc;;\n") := by
  have hne : str "func_trace.go" ≠ str "function_timing.go" := by decide
  refine ⟨?_, hne, by decide, rfl, rfl, rfl, rfl, by decide, by decide, by decide, by decide⟩
  intro env dir w
  refine ⟨bundled_path_Ext dir, bundled_path_Base dir, ?_⟩
  apply walkFn_routed env _ w (bundled_path_Ext dir)
  rw [bundled_path_Base dir]
  exact hne

/-! ## Test files in the directory walk -/

theorem str_test_go :
    str "_test.go" = str "_test" ++ dot :: str "go" ∧ str ".go" = dot :: str "go" := by
  decide

theorem test_file_Ext (a : GoString) : Ext (a ++ str "_test.go") = str ".go" := by
  rw [str_test_go.1, str_test_go.2, ← List.append_assoc]
  exact Ext_append_dot _ _ (by decide)

theorem test_file_Base (a : GoString) :
    Base (a ++ str "_test.go") ≠ str "function_timing.go" := by
  have hl : (a ++ str "_test.go").getLast? ≠ some slash := by
    have : (a ++ str "_test.go").getLast? = some 111 := by
      rw [List.getLast?_append]
      rfl
    rw [this]
    decide
  intro h
  rcases Base_suffix _ hl with h1 | h1 | h1
  · rw [h] at h1
    revert h1
    decide
  · rw [h] at h1
    revert h1
    decide
  · rw [h] at h1
    have h2 : str "_test.go" <:+ a ++ str "_test.go" := List.suffix_append _ _
    have h3 : str "_test.go" <:+ str "function_timing.go" :=
      List.suffix_of_suffix_length_le h2 h1 (by decide)
    revert h3
    decide

/-- C12: the code, at its failing input.  A regular file whose name ends in
`_test.go`, met without error, is handed to `addFunctionTiming` (for every
path with that ending); the file `repo/calc_test.go` is rewritten by the walk
over `repo`. -/
theorem C12_test_file_is_processed :
    (∀ (env : Env) (a : GoString) (w : World),
        walkFn env ⟨a ++ str "_test.go", some ⟨false⟩, none⟩ w =
          addFunctionTiming env (a ++ str "_test.go")
            { w with stdout := w.stdout ++
                [str "处理文件: " ++ (a ++ str "_test.go") ++ str "\n"] }) ∧
      worldTest.disk (str "repo/calc_test.go") = some (str "package b\nfunc Run() {}\n") ∧
      (processDirectory env0 treeTest worldTest).1 = none ∧
      (processDirectory env0 treeTest worldTest).2.disk (str "repo/calc_test.go") =
        some (str "package b\n// printed\n") ∧
      (processDirectory env0 treeTest worldTest).2.stdout =
        [str "处理文件: repo/calc_test.go\n", str "已为函数 Run 添加耗时统计\n"] := by
  refine ⟨?_, by decide, by decide, by decide, by decide⟩
  intro env a w
  exact walkFn_routed env _ w (test_file_Ext a) (test_file_Base a)

/-! ## Progress lines -/

theorem applyPre_snd (d : FuncDecl) :
    (applyPre d).2 = if str "Test" <+: d.Name then [] else [progressLine (getFunctionName d)] := by
  by_cases h : str "Test" <+: d.Name
  · rw [if_pos h, applyPre_test d h]
  · rw [if_neg h]
    unfold applyPre
    rw [if_neg (fun hc => h ((testCheck_iff d.Name).1 hc))]

/-- C13: the code, at its failing input.  The callback prints the progress line
for every declaration whose name does not start with `Test`, whatever its body;
for the bodiless `func Sqrt(x float64) float64` the line naming `Sqrt` is
printed although the declaration is unchanged and its body still absent. -/
theorem C13_line_without_insertion :
    (∀ d : FuncDecl,
        (applyPre d).2 =
          if str "Test" <+: d.Name then [] else [progressLine (getFunctionName d)]) ∧
      declSqrt.Body = none ∧
      (instrument fileSqrt).1.Decls = [.func declSqrt] ∧
      (instrument fileSqrt).2 = [str "已为函数 Sqrt 添加耗时统计\n"] := by
  refine ⟨applyPre_snd, rfl, rfl, by decide⟩

/-! ## Parse failure -/

/-- C14: when the file does not parse (or cannot be read), `addFunctionTiming`
returns the error `解析文件失败: ` followed by the parser's message and leaves
the world as it was: nothing is printed, no tree is built or changed, and
nothing is written, so every file has the content it had. -/
theorem C14_parse_failure_atomic (env : Env) (filePath : GoString) (w : World) (err : GoString)
    (hparse : ParseFile env filePath w = .error err) :
    addFunctionTiming env filePath w = (some (str "解析文件失败: " ++ err), w) ∧
      (addFunctionTiming env filePath w).2.disk = w.disk ∧
      (addFunctionTiming env filePath w).2.stdout = w.stdout := by
  have h : addFunctionTiming env filePath w = (some (str "解析文件失败: " ++ err), w) := by
    unfold addFunctionTiming
    rw [hparse]
  rw [h]
  exact ⟨rfl, rfl, rfl⟩

/-- The file `repo/a.go` holds `func`, which does not parse: the error comes
back and the file still holds `func`. -/
theorem C14_parse_failure_atomic_witness :
    ParseFile env0 (str "repo/a.go") world0 = .error (str "1:1: expected package clause") ∧
      addFunctionTiming env0 (str "repo/a.go") world0 =
        (some (str "解析文件失败: " ++ str "1:1: expected package clause"), world0) ∧
      (addFunctionTiming env0 (str "repo/a.go") world0).2.disk (str "repo/a.go") =
        some (str "func") :=
  ⟨rfl, (C14_parse_failure_atomic env0 (str "repo/a.go") world0 _ rfl).1,
    (congrFun (C14_parse_failure_atomic env0 (str "repo/a.go") world0 _ rfl).2.1
      (str "repo/a.go")).trans rfl⟩

/-! ## The two traversals -/

theorem HasPrefix_Test_iff (name : GoString) :
    HasPrefix name (str "Test") = true ↔ str "Test" <+: name := by
  rw [List.prefix_iff_eq_take]
  unfold HasPrefix
  rw [str_Test_length]
  simp only [Bool.and_eq_true, decide_eq_true_eq, beq_iff_eq]
  constructor
  · rintro ⟨_, h⟩
    exact h.symm
  · intro h
    refine ⟨?_, h.symm⟩
    have h1 := congrArg List.length h
    rw [str_Test_length, List.length_take] at h1
    omega

theorem testCheck_eq_HasPrefix (name : GoString) :
    (name == str "Test" ||
      (decide (name.length > 4) && name.take 4 == str "Test")) =
      HasPrefix name (str "Test") := by
  rw [Bool.eq_iff_iff, testCheck_iff, HasPrefix_Test_iff]

theorem applyPre_fst (d : FuncDecl) :
    (applyPre d).1 =
      { d with
        Body := if str "Test" <+: d.Name then d.Body
          else d.Body.map (fun B => startStmt :: deferStmt (getFunctionName d) :: B) } := by
  by_cases h : str "Test" <+: d.Name
  · rw [if_pos h, applyPre_test d h]
  · rw [if_neg h]
    cases hB : d.Body with
    | none =>
      rw [applyPre_none d hB]
      cases d
      simp only at hB
      subst hB
      rfl
    | some B =>
      rw [applyPre_some d B hB h]
      rfl

theorem Visit_funcDecl (v : FileVisitor) (d : FuncDecl) :
    v.Visit (.funcDecl d) =
      if HasPrefix d.Name (str "Test") || d.Body.isNone then v
      else ⟨AddImport (AddImport v.File (str "time")) (str "fmt"), true⟩ := rfl

theorem pair_body_ne (d : FuncDecl) (B : List Stmt) (hB : d.Body = some B) :
    d.Body.map (fun B => startStmt :: deferStmt (getFunctionName d) :: B) ≠ d.Body := by
  rw [hB]
  intro h
  have h1 := congrArg (fun o : Option (List Stmt) => o.map List.length) h
  simp only [Option.map_some', List.length_cons, Option.some.injEq] at h1
  omega

/-- C15: the test check of `addFunctionTiming` is `strings.HasPrefix(name,
"Test")` for every name, and so the two traversals agree on every function
declaration: the callback of `addFunctionTiming` puts the pair in front of the
body exactly when `FileVisitor.Visit` takes the declaration as qualifying
(name without the prefix `Test`, body not nil), which is when it sets `Modify`. -/
theorem C15_traversals_agree (d : FuncDecl) (file : File) :
    (∀ name : GoString,
        (name == str "Test" ||
          (decide (name.length > 4) && name.take 4 == str "Test")) =
          HasPrefix name (str "Test")) ∧
      (applyPre d).1.Body =
        (if HasPrefix d.Name (str "Test") || d.Body.isNone then d.Body
         else d.Body.map (fun B => startStmt :: deferStmt (getFunctionName d) :: B)) ∧
      FileVisitor.Visit ⟨file, false⟩ (.funcDecl d) =
        (if HasPrefix d.Name (str "Test") || d.Body.isNone then ⟨file, false⟩
         else ⟨AddImport (AddImport file (str "time")) (str "fmt"), true⟩) ∧
      ((applyPre d).1.Body ≠ d.Body ↔
        (FileVisitor.Visit ⟨file, false⟩ (.funcDecl d)).Modify = true) := by
  refine ⟨testCheck_eq_HasPrefix, ?_, Visit_funcDecl _ d, ?_⟩
  · rw [applyPre_fst]
    by_cases h : str "Test" <+: d.Name
    · simp [h, (HasPrefix_Test_iff d.Name).2 h]
    · have hf : HasPrefix d.Name (str "Test") = false := by
        rw [← Bool.not_eq_true, HasPrefix_Test_iff]
        exact h
      cases hB : d.Body <;> simp [h, hf]
  · rw [applyPre_fst, Visit_funcDecl]
    by_cases h : str "Test" <+: d.Name
    · simp [h, (HasPrefix_Test_iff d.Name).2 h]
    · have hf : HasPrefix d.Name (str "Test") = false := by
        rw [← Bool.not_eq_true, HasPrefix_Test_iff]
        exact h
      cases hB : d.Body with
      | none => simp [h, hf]
      | some B =>
        have hne := pair_body_ne d B hB
        rw [hB] at hne
        simp only [h, hf, if_false, Option.isNone_some, Bool.or_self, Bool.false_eq_true]
        exact ⟨fun _ => trivial, fun _ => hne⟩

/-! ## Frame of one run -/

theorem funcDecls_instrument (file : File) :
    funcDecls (instrument file).1 = (funcDecls file).map (fun d => (applyPre d).1) := by
  unfold funcDecls
  rw [instrument_Decls, List.filterMap_map, List.map_filterMap]
  congr 1
  funext x
  cases x <;> rfl

theorem otherDecls_instrument (file : File) :
    otherDecls (instrument file).1 = otherDecls file := by
  unfold otherDecls
  rw [instrument_Decls, List.filter_map]
  have hp : ((fun x : Decl => match x with
      | .func _ => false
      | .gen .IMPORT _ => false
      | _ => true) ∘ fun d => (applyDecl d).1) =
      (fun x : Decl => match x with
      | .func _ => false
      | .gen .IMPORT _ => false
      | _ => true) := by
    funext x
    cases x <;> rfl
  rw [hp]
  refine (List.map_congr_left ?_).trans (List.map_id _)
  intro x hx
  have hx2 := (List.mem_filter.1 hx).2
  cases x with
  | func d => simp at hx2
  | gen tok code => rfl
  | bad code => rfl

theorem instrument_Name (file : File) : (instrument file).1.Name = file.Name := by
  have h : ∀ (f : File) (p : GoString), (AddImport f p).Name = f.Name := by
    intro f p
    unfold AddImport AddNamedImport
    split <;> rfl
  show (AddImport (AddImport file (str "time")) (str "fmt")).Name = _
  rw [h, h]

/-- C17: frame of one run.  The package name is kept; the function
declarations are the same in number and order, each with its name, receiver,
parameters and results, and with its body either as before or, when the body is
present and the name does not start with `Test`, with the pair in front; the
declarations that are neither functions nor imports are kept; the imports
before the run are still there. -/
theorem C17_frame (file : File) :
    (instrument file).1.Name = file.Name ∧
      funcDecls (instrument file).1 =
        (funcDecls file).map (fun d =>
          { d with
            Body := if str "Test" <+: d.Name then d.Body
              else d.Body.map (fun B => startStmt :: deferStmt (getFunctionName d) :: B) }) ∧
      (funcDecls (instrument file).1).length = (funcDecls file).length ∧
      (funcDecls (instrument file).1).map (fun d => (d.Name, d.Recv, d.Typ)) =
        (funcDecls file).map (fun d => (d.Name, d.Recv, d.Typ)) ∧
      (∀ (i : Nat) (d d1 : FuncDecl), (funcDecls file)[i]? = some d → (funcDecls (instrument file).1)[i]? = some d1 →
        d1.Body ≠ d.Body → d.Body ≠ none ∧ ¬ str "Test" <+: d.Name) ∧
      otherDecls (instrument file).1 = otherDecls file ∧
      file.Imports <+: (instrument file).1.Imports := by
  have hmap : funcDecls (instrument file).1 =
      (funcDecls file).map (fun d =>
        { d with
          Body := if str "Test" <+: d.Name then d.Body
            else d.Body.map (fun B => startStmt :: deferStmt (getFunctionName d) :: B) }) := by
    rw [funcDecls_instrument]
    exact List.map_congr_left (fun d _ => applyPre_fst d)
  refine ⟨instrument_Name file, hmap, ?_, ?_, ?_, otherDecls_instrument file, ?_⟩
  · rw [hmap, List.length_map]
  · rw [hmap, List.map_map]
    rfl
  · intro i d d1 hd hd1 hne
    rw [hmap, List.getElem?_map, hd] at hd1
    simp only [Option.map_some', Option.some.injEq] at hd1
    subst hd1
    simp only at hne
    by_cases hp : str "Test" <+: d.Name
    · rw [if_pos hp] at hne
      exact absurd rfl hne
    · refine ⟨?_, hp⟩
      intro hB
      rw [if_neg hp, hB] at hne
      exact hne rfl
  · rw [instrument_Imports, List.append_assoc]
    exact List.prefix_append _ _

/-- The frame at `fileTesting`: a type declaration, `Testing` and `Test` are
all as before. -/
theorem C17_frame_witness :
    funcDecls (instrument fileTesting).1 = [declTesting, declTest] ∧
      otherDecls (instrument fileTesting).1 = [.gen (.Other 84) 0] ∧
      (instrument fileAdd).1.Name = str "calc" :=
  ⟨(C17_frame fileTesting).2.1, (C17_frame fileTesting).2.2.2.2.2.1, (C17_frame fileAdd).1⟩

end StaticEmbed
